import Mathlib

/-!
Shallow embedding of the review-highlight subsystem of the OCR_Docs
repository: the geometry utilities (`src/frontend/src/review/highlightUtils.ts`,
shipped here as `src/unnamed/part_001`) and the field-reconciliation and
highlight-selection logic of `src/frontend/src/review/ReviewPage.jsx`.

JavaScript numbers that can be NaN or infinite are modelled by `JSNum`
(NaN, the two infinities, or an exact rational).  Pure arithmetic that the
code only ever performs on ordinary finite numbers (`bboxToRect`,
`computeZoomToFit`, `clamp`) is modelled directly over `ℚ`.
-/

namespace OCRReview

/-- Model of a JavaScript number: NaN, one of the two infinities, or a
finite value (modelled exactly as a rational). -/
inductive JSNum where
  | nan
  | posInf
  | negInf
  | fin (q : ℚ)
deriving DecidableEq, Repr

namespace JSNum

/-- `Number.isNaN(n)`. -/
def isNaN : JSNum → Bool
  | .nan => true
  | _ => false

/-- `Number.isFinite(n)`. -/
def isFinite : JSNum → Bool
  | .fin _ => true
  | _ => false

/-- JavaScript truthiness of a number: everything except NaN and 0. -/
def truthy : JSNum → Bool
  | .nan => false
  | .fin q => q != 0
  | _ => true

/-- `n || 0` on a number: NaN and 0 are falsy and give 0. -/
def orZero (n : JSNum) : JSNum :=
  if n.truthy then n else .fin 0

end JSNum

/-- A raw bbox payload as it reaches `normalizeBBox`: absent
(null/undefined, both falsy), a JS array whose entries are given by their
`Number(item)` conversion (so a non-numeric entry appears as `nan`), or an
object whose `x1,y1,x2,y2,page` members are likewise given by their
`Number(...)` conversion (a missing member converts to `nan`). -/
inductive RawBBox where
  | missing
  | arr (items : List JSNum)
  | obj (x1 y1 x2 y2 page : JSNum)
deriving DecidableEq, Repr

/-- A normalized bounding box (the `BBox` type of `highlightTypes.ts`):
four numeric coordinates and an optional page. -/
structure NBBox where
  x1 : JSNum
  y1 : JSNum
  x2 : JSNum
  y2 : JSNum
  page : Option JSNum
deriving DecidableEq, Repr

/-- `normalizeBBox(raw, fallbackPage)` from `highlightUtils.ts`:
null input gives null; a sequence is accepted only at length 4, with each
entry coerced by `Number(item) || 0`; an object is rejected when any of
its four coordinates converts to NaN, and its page is kept only when
finite, else replaced by `fallbackPage`. -/
def normalizeBBox (raw : RawBBox) (fallbackPage : Option JSNum) : Option NBBox :=
  match raw with
  | .missing => none
  | .arr items =>
    match items with
    | [a, b, c, d] => some ⟨a.orZero, b.orZero, c.orZero, d.orZero, fallbackPage⟩
    | _ => none
  | .obj x1 y1 x2 y2 page =>
    if x1.isNaN || y1.isNaN || x2.isNaN || y2.isNaN then none
    else some ⟨x1, y1, x2, y2, if page.isFinite then some page else fallbackPage⟩

/-- The `Rect` type of `highlightTypes.ts`. -/
structure Rect where
  left : ℚ
  top : ℚ
  width : ℚ
  height : ℚ
deriving DecidableEq, Repr

/-- The `Viewport` type of `highlightTypes.ts`. -/
structure Viewport where
  width : ℚ
  height : ℚ
deriving DecidableEq, Repr

/-- `clamp(value, min, max)` from `highlightUtils.ts` on the rational
fragment; the JS guard returning `min` for a NaN value has no rational
counterpart, NaN being unrepresentable in `ℚ`. -/
def clamp (value lo hi : ℚ) : ℚ :=
  min (max value lo) hi

/-- A bounding box with finite coordinates, as consumed by `bboxToRect`. -/
structure BBoxQ where
  x1 : ℚ
  y1 : ℚ
  x2 : ℚ
  y2 : ℚ
deriving DecidableEq, Repr

/-- The `dimensions` record passed to `bboxToRect`; `naturalWidth` and
`naturalHeight` are optional and a stored 0 behaves like their absence
(both are falsy in JS), which the scale computation below reflects;
`bboxRelative` is the explicit coordinate-space flag when boolean. -/
structure Dims where
  displayWidth : ℚ
  displayHeight : ℚ
  naturalWidth : Option ℚ
  naturalHeight : Option ℚ
  bboxRelative : Option Bool
deriving DecidableEq, Repr

/-- The coordinate-space decision inside `bboxToRect`: the explicit flag
when it is boolean, otherwise inferred from the signed maximum
`Math.max(bbox.x1, bbox.y1, bbox.x2, bbox.y2) <= 1.5`. -/
def inferredRelative (bbox : BBoxQ) (bboxRelative : Option Bool) : Bool :=
  match bboxRelative with
  | some b => b
  | none => decide (max (max bbox.x1 bbox.y1) (max bbox.x2 bbox.y2) ≤ 3/2)

/-- Modelled from the spec's words (§3 of spec.md): a box with no explicit
flag is relative iff `max(|x1|,|y1|,|x2|,|y2|) ≤ 1.5`.  Kept separate from
the source's `inferredRelative` so the two rules can be compared. -/
def specRelativeMaxAbs (bbox : BBoxQ) : Bool :=
  decide (max (max |bbox.x1| |bbox.y1|) (max |bbox.x2| |bbox.y2|) ≤ 3/2)

/-- `naturalWidth ? displayWidth / naturalWidth : 1` (and the analogous
scaleY): the scale factor is 1 when the natural dimension is falsy
(absent or 0). -/
def scaleOf (display : ℚ) (naturalDim : Option ℚ) : ℚ :=
  match naturalDim with
  | some n => if n = 0 then 1 else display / n
  | none => 1

/-- `bboxToRect(bbox, dimensions)` from `highlightUtils.ts`. -/
def bboxToRect (bbox : BBoxQ) (dims : Dims) : Rect :=
  if inferredRelative bbox dims.bboxRelative then
    { left := bbox.x1 * dims.displayWidth
      top := bbox.y1 * dims.displayHeight
      width := max ((bbox.x2 - bbox.x1) * dims.displayWidth) 2
      height := max ((bbox.y2 - bbox.y1) * dims.displayHeight) 2 }
  else
    let scaleX := scaleOf dims.displayWidth dims.naturalWidth
    let scaleY := scaleOf dims.displayHeight dims.naturalHeight
    { left := bbox.x1 * scaleX
      top := bbox.y1 * scaleY
      width := max ((bbox.x2 - bbox.x1) * scaleX) 2
      height := max ((bbox.y2 - bbox.y1) * scaleY) 2 }

/-- `rectCenter(rect)` from `highlightUtils.ts`. -/
def rectCenter (rect : Rect) : ℚ × ℚ :=
  (rect.left + rect.width / 2, rect.top + rect.height / 2)

/-- `computeZoomToFit(rect, viewport, padding, minZoom, maxZoom)` from
`highlightUtils.ts` (the source defaults are padding 20, minZoom 1,
maxZoom 3, passed explicitly here). -/
def computeZoomToFit (rect : Rect) (viewport : Viewport)
    (padding minZoom maxZoom : ℚ) : ℚ :=
  let safeWidth := max (rect.width + padding * 2) 1
  let safeHeight := max (rect.height + padding * 2) 1
  let zoomX := viewport.width / safeWidth
  let zoomY := viewport.height / safeHeight
  clamp (min zoomX zoomY) minZoom maxZoom

/-- JavaScript `toLowerCase()` on the ASCII fragment the code compares
(statuses such as "error"/"invalid"), modelled characterwise. -/
def jsToLower (s : String) : String :=
  ⟨s.data.map Char.toLower⟩

/-- Lexicographic code-unit comparison of character lists, the order
behind JavaScript's default `Array.prototype.sort` on strings. -/
def charListLeB : List Char → List Char → Bool
  | [], _ => true
  | _ :: _, [] => false
  | a :: as, b :: bs =>
    if a.toNat < b.toNat then true
    else if b.toNat < a.toNat then false
    else charListLeB as bs

/-- The string order used by the JS default sort (code-unit
lexicographic). -/
def strLe (a b : String) : Prop :=
  charListLeB a.data b.data = true

instance : DecidableRel strLe := fun a b =>
  inferInstanceAs (Decidable (charListLeB a.data b.data = true))

/-- `PRIORITY_FIELDS` from `ReviewPage.jsx`. -/
def PRIORITY_FIELDS : List String :=
  ["supplier_name", "fournisseur", "date", "city", "ville", "country", "pays",
   "montant", "total", "tva", "ice", "rib", "iban", "numero_facture", "adresse",
   "email"]

/-- A field payload value as consumed by `readValue` and
`pickInitialFieldValue`: null/undefined, a string, a number (the repo only
ever exercises integral values through these functions, so numbers are
modelled as integers), or an object.  An object is modelled by which of
the members `value` / `text` the code inspects it carries: `vobjValue v`
is an object with a `value` member (any further members are never read),
`vobjText t` one without `value` but with `text`, and `vobjEmpty` one with
neither. -/
inductive JSValue where
  | vnull
  | vstr (s : String)
  | vnum (n : Int)
  | vobjEmpty
  | vobjValue (v : JSValue)
  | vobjText (t : JSValue)
deriving DecidableEq, Repr

/-- JavaScript `String(x)` on the modelled value fragment. -/
def jsString : JSValue → String
  | .vnull => "null"
  | .vstr s => s
  | .vnum n => toString n
  | _ => "[object Object]"

/-- `JSON.stringify` on the modelled value fragment (no modelled input
needs string escaping). -/
def jsonStringify : JSValue → String
  | .vnull => "null"
  | .vstr s => "\"" ++ s ++ "\""
  | .vnum n => toString n
  | .vobjEmpty => "\x7b\x7d"
  | .vobjValue v => "\x7b\"value\":" ++ jsonStringify v ++ "\x7d"
  | .vobjText t => "\x7b\"text\":" ++ jsonStringify t ++ "\x7d"

/-- `readValue(payloadValue)` from `ReviewPage.jsx`: empty string for
null/undefined, `String(...)` for strings and numbers, the `value` then
`text` member of an object (empty string when that member is
null/undefined), JSON-stringified as a last resort. -/
def readValue : JSValue → String
  | .vnull => ""
  | .vstr s => s
  | .vnum n => toString n
  | .vobjValue v => if v = .vnull then "" else jsString v
  | .vobjText t => if t = .vnull then "" else jsString t
  | .vobjEmpty => jsonStringify .vobjEmpty

/-- A JS object used as a field map, modelled as an association list with
distinct keys; `lookupField` returns the first binding, `none` meaning the
key is absent (`fieldName in map` is false). -/
abbrev FieldMap := List (String × JSValue)

/-- Key lookup in a field map. -/
def lookupField (m : FieldMap) (name : String) : Option JSValue :=
  (m.find? (fun kv => kv.fst == name)).map Prod.snd

/-- `mergeFieldNames(rawFields, normalizedFields, correctedFields)` from
`ReviewPage.jsx`, as a function of the three key lists: `names` is the
key set (a JS `Set`, modelled by deduplication), the priority names
present come first in canonical order, the remaining names are appended
sorted. -/
def mergeFieldNames (rawKeys normalizedKeys correctedKeys : List String) :
    List String :=
  let names := (rawKeys ++ normalizedKeys ++ correctedKeys).dedup
  let priority := PRIORITY_FIELDS.filter (fun name => names.contains name)
  let rest :=
    (names.filter (fun name => !priority.contains name)).insertionSort strLe
  priority ++ rest

/-- `pickInitialFieldValue(fieldName, raw, normalized, corrected)` from
`ReviewPage.jsx`: precedence decided by key presence (JS `in`),
corrected over normalized over raw; an absent raw entry reads as
undefined, hence the empty string. -/
def pickInitialFieldValue (fieldName : String)
    (rawFields normalizedFields correctedFields : FieldMap) : String :=
  match lookupField correctedFields fieldName with
  | some v => readValue v
  | none =>
    match lookupField normalizedFields fieldName with
    | some v => readValue v
    | none => readValue ((lookupField rawFields fieldName).getD .vnull)

/-- The per-field metadata record built by `extractFieldMeta` in
`ReviewPage.jsx`: `page` is a finite number or null, `confidence` a number
or null, `errors` always a string list, `status` a string or null (the
code only ever compares string-valued statuses). -/
structure FieldMeta where
  bbox : RawBBox
  page : Option ℚ
  confidence : Option ℚ
  bbox_relative : Option Bool
  errors : List String
  isValid : Option Bool
  status : Option String
  message : Option String
deriving DecidableEq, Repr

/-- `resolveHighlightStatus(meta)` from `ReviewPage.jsx`; a null status
reads as the empty string through `String(meta?.status || "")`. -/
def resolveHighlightStatus (meta : FieldMeta) : String :=
  let status := jsToLower (meta.status.getD "")
  if status = "error" then "error"
  else if status = "invalid" then "invalid"
  else if meta.errors.length > 0 then "error"
  else if meta.isValid = some false then "invalid"
  else if meta.confidence.any (fun c => decide (c < 1/2)) then "invalid"
  else "ok"

/-- Modelled from the amended C1 sentence: "error" if the explicit status
is "error"; otherwise "invalid" if the explicit status is "invalid";
otherwise "error" if the errors list is non-empty; otherwise "invalid" if
isValid is exactly false or confidence is a number below 0.5; otherwise
"ok".  Stated independently of the source's `resolveHighlightStatus` so
the code can be proven to implement exactly this order. -/
def specStatusAmended (meta : FieldMeta) : String :=
  let explicitStatus := jsToLower (meta.status.getD "")
  if explicitStatus = "error" then "error"
  else if explicitStatus = "invalid" then "invalid"
  else if meta.errors ≠ [] then "error"
  else if meta.isValid = some false then "invalid"
  else if (match meta.confidence with
    | some c => decide (c < 1/2)
    | none => false) = true then "invalid"
  else "ok"

/-- The bbox stored on a built `Highlight`: the normalized bbox with its
page overwritten by the resolved page number. -/
structure HBBox where
  x1 : JSNum
  y1 : JSNum
  x2 : JSNum
  y2 : JSNum
  page : JSNum
deriving DecidableEq, Repr

/-- The `Highlight` type of `highlightTypes.ts`. -/
structure Highlight where
  id : String
  fieldKey : String
  bbox : HBBox
  status : String
  message : Option String
  createdAt : ℕ
deriving DecidableEq, Repr

/-- JavaScript number-to-string as used in the id template literal.
Integers print exactly; a non-integral rational falls back to the exact
`num/den` rendering (JS decimal formatting is not modelled — the code only
ever compares the resulting ids for equality). -/
def jsNumToString : JSNum → String
  | .nan => "NaN"
  | .posInf => "Infinity"
  | .negInf => "-Infinity"
  | .fin q =>
    if q.den = 1 then toString q.num
    else toString q.num ++ "/" ++ toString q.den

/-- `meta.page || 1`: null and 0 are falsy and give 1. -/
def metaPageOr1 (page : Option ℚ) : ℚ :=
  match page with
  | some p => if p = 0 then 1 else p
  | none => 1

/-- `Number(normalizedBBox.page || meta.page || 1)`: the first truthy
value among the normalized bbox's page, the field's page and 1. -/
def resolvePage (nbPage : Option JSNum) (metaPage : Option ℚ) : JSNum :=
  match nbPage with
  | some n => if n.truthy then n else .fin (metaPageOr1 metaPage)
  | none => .fin (metaPageOr1 metaPage)

/-- `meta.message || meta.errors?.[0]`: the message when it is a
non-empty string, else the first error if any. -/
def resolveMessage (meta : FieldMeta) : Option String :=
  match meta.message with
  | some m => if m = "" then meta.errors.head? else some m
  | none => meta.errors.head?

/-- `buildHighlightForField(fieldName)` from `ReviewPage.jsx`; `meta` is
the field's entry of the `fieldMeta` map (`none` when absent) and `now`
stands for `Date.now()`. -/
def buildHighlightForField (fieldName : String) (meta : Option FieldMeta)
    (now : ℕ) : Option Highlight :=
  match meta with
  | none => none
  | some meta =>
    match normalizeBBox meta.bbox (some (.fin (metaPageOr1 meta.page))) with
    | none => none
    | some nb =>
      let page := resolvePage nb.page meta.page
      let bbox : HBBox := ⟨nb.x1, nb.y1, nb.x2, nb.y2, page⟩
      let id := fieldName ++ ":" ++ jsNumToString page ++ ":" ++
        jsNumToString bbox.x1 ++ ":" ++ jsNumToString bbox.y1 ++ ":" ++
        jsNumToString bbox.x2 ++ ":" ++ jsNumToString bbox.y2
      some ⟨id, fieldName, bbox, resolveHighlightStatus meta,
        resolveMessage meta, now⟩

/-- The `highlightsState` value of `ReviewPage.jsx`. -/
structure HighlightsState where
  highlights : List Highlight
  selectedHighlightIds : List String
deriving DecidableEq, Repr

/-- `clearHighlights()` from `ReviewPage.jsx`. -/
def clearHighlights : HighlightsState :=
  ⟨[], []⟩

/-- The state updater inside `updateSelectionFromField` in
`ReviewPage.jsx`, as a pure function of the previous state, the candidate
highlight, the multi-select flag and the enhanced-highlights feature
flag. -/
def updateSelection (enhancedEnabled isMultiSelect : Bool)
    (nextHighlight : Option Highlight) (prev : HighlightsState) :
    HighlightsState :=
  if !enhancedEnabled || !isMultiSelect then
    match nextHighlight with
    | none => ⟨[], []⟩
    | some h => ⟨[h], [h.id]⟩
  else
    match nextHighlight with
    | none => prev
    | some h =>
      if prev.selectedHighlightIds.contains h.id then
        let nextSelected := prev.selectedHighlightIds.filter
          (fun id => id != h.id)
        ⟨prev.highlights.filter (fun item => nextSelected.contains item.id),
          nextSelected⟩
      else
        let filtered := prev.highlights.filter (fun item => item.id != h.id)
        ⟨filtered ++ [h], prev.selectedHighlightIds ++ [h.id]⟩

/-- `updateSelectionFromField(fieldName, isMultiSelect)` from
`ReviewPage.jsx`: builds the candidate from the field metadata map and
applies the state update. -/
def updateSelectionFromField (enhancedEnabled : Bool)
    (fieldMeta : String → Option FieldMeta) (fieldName : String)
    (isMultiSelect : Bool) (now : ℕ) (prev : HighlightsState) :
    HighlightsState :=
  updateSelection enhancedEnabled isMultiSelect
    (buildHighlightForField fieldName (fieldMeta fieldName) now) prev

/-- Highlight-selection states reachable from the initial empty state
through `focusField` updates (any feature-flag / multi-select combination,
any candidate) and `clearHighlights`. -/
inductive Reachable : HighlightsState → Prop where
  | init : Reachable ⟨[], []⟩
  | focus (flag multi : Bool) (cand : Option Highlight)
      (s : HighlightsState) : Reachable s →
      Reachable (updateSelection flag multi cand s)
  | clear (s : HighlightsState) : Reachable s → Reachable clearHighlights

/-- Demonstration metadata for a field "A": a resolvable array-form
bbox. -/
def metaA : FieldMeta :=
  ⟨.arr [.fin 0, .fin 0, .fin 1, .fin 1], some 1, none, none, [], none,
    none, none⟩

/-- Demonstration metadata for a field "B": a distinct resolvable
bbox. -/
def metaB : FieldMeta :=
  ⟨.arr [.fin 2, .fin 2, .fin 3, .fin 3], some 1, none, none, [], none,
    none, none⟩

/-- Demonstration `fieldMeta` map holding exactly the fields "A" and
"B". -/
def demoFieldMeta : String → Option FieldMeta :=
  fun n => if n = "A" then some metaA else if n = "B" then some metaB
    else none

/-! ## Theorems for the claims -/

/-- C1 counterexample: metadata with explicit status "invalid" and a
non-empty errors list resolves to "invalid", not "error" as the claim
states — the code tests the explicit "invalid" status before it looks at
the errors list. -/
theorem C1_claim_counterexample :
    resolveHighlightStatus
      ⟨.missing, none, none, none, ["bad ICE"], none, some "invalid",
        none⟩ = "invalid" ∧
    ("invalid" : String) ≠ "error" := by
  exact ⟨by decide, by decide⟩

/-- C1 (amended): `resolveHighlightStatus` returns "error" if the
explicit status is "error"; otherwise "invalid" if the explicit status is
"invalid"; otherwise "error" if the errors list is non-empty; otherwise
"invalid" if isValid is exactly false or confidence is a number below
0.5; otherwise "ok" — the explicit "invalid" status is tested BEFORE the
errors list.  In particular, for metadata with explicit status "invalid"
and a non-empty errors list the result is "invalid"; for confidence 0.4
with no explicit status or errors the result is "invalid"; and for errors
list ["bad ICE"] with status "ok" the result is "error". -/
theorem C1_status_order_amended :
    (∀ meta, resolveHighlightStatus meta = specStatusAmended meta) ∧
    resolveHighlightStatus
      ⟨.missing, none, none, none, ["bad ICE"], none, some "invalid",
        none⟩ = "invalid" ∧
    resolveHighlightStatus
      ⟨.missing, none, some (4/10), none, [], none, none, none⟩ =
      "invalid" ∧
    resolveHighlightStatus
      ⟨.missing, none, none, none, ["bad ICE"], none, some "ok", none⟩ =
      "error" := by
  refine ⟨?_, by decide, ?_, by decide⟩
  · intro meta
    rcases meta with ⟨bbox, page, conf, rel, errors, valid, st, msg⟩
    rcases errors with _ | ⟨e, es⟩ <;> rcases conf with _ | c <;>
      simp [resolveHighlightStatus, specStatusAmended]
  · have h : ((4 : ℚ)/10 < 2⁻¹) := by norm_num
    simp [resolveHighlightStatus, jsToLower, h]

/-- C2 counterexample: with no explicit flag, the box with `x1 = -500`
and the other coordinates at most 1.5 is inferred RELATIVE by the code
(its signed maximum is 1 ≤ 1.5), while the claim's
max-of-absolute-values rule classifies it absolute; observably,
`bboxToRect` then multiplies by the display size instead of the
natural-size scale factor. -/
theorem C2_claim_counterexample :
    inferredRelative ⟨-500, 0, 1, 1⟩ none = true ∧
    specRelativeMaxAbs ⟨-500, 0, 1, 1⟩ = false ∧
    (bboxToRect ⟨-500, 0, 1, 1⟩ ⟨10, 10, some 1000, some 1000, none⟩).left
      = -5000 := by
  refine ⟨?_, ?_, ?_⟩
  · norm_num [inferredRelative]
  · norm_num [specRelativeMaxAbs]
  · norm_num [bboxToRect, inferredRelative]

/-- C2 (amended): for a bounding box with no explicit boolean
coordinate-space flag, `bboxToRect` infers the box to be relative iff the
SIGNED maximum `max(x1, y1, x2, y2)` is at most 1.5 (absolute values are
not taken); in particular a box containing a coordinate with large
magnitude but negative sign (x1 = -500 while the other coordinates are
below 1.5) is still treated as relative.  An explicit boolean flag is
used as given. -/
theorem C2_relative_inference_amended :
    (∀ bbox : BBoxQ,
      inferredRelative bbox none = true ↔
        max (max bbox.x1 bbox.y1) (max bbox.x2 bbox.y2) ≤ 3/2) ∧
    (∀ bbox : BBoxQ, ∀ flag : Bool, inferredRelative bbox (some flag) = flag) ∧
    inferredRelative ⟨-500, 0, 1, 1⟩ none = true := by
  refine ⟨fun bbox => ?_, fun bbox flag => rfl, by norm_num [inferredRelative]⟩
  simp [inferredRelative]

/-- `Number(x) || 0` is the identity on finite numbers. -/
lemma JSNum.orZero_fin (q : ℚ) : JSNum.orZero (.fin q) = .fin q := by
  by_cases h : q = 0 <;> simp [JSNum.orZero, JSNum.truthy, h]

/-- C3 counterexample: an object input whose `x1` converts to Infinity is
NOT rejected — `Number.isNaN` lets infinities through — so the claim's
"null for any non-finite coordinate (including Infinity)" fails. -/
theorem C3_claim_counterexample :
    normalizeBBox (.obj .posInf (.fin 0) (.fin 1) (.fin 1) .nan)
        (some (.fin 1)) =
      some ⟨.posInf, .fin 0, .fin 1, .fin 1, some (.fin 1)⟩ ∧
    normalizeBBox (.obj .posInf (.fin 0) (.fin 1) (.fin 1) .nan)
        (some (.fin 1)) ≠ none := by
  refine ⟨rfl, ?_⟩
  simp [normalizeBBox, JSNum.isNaN, JSNum.isFinite]

/-- C3 (amended): `normalizeBBox` is total and returns null exactly for
missing or malformed input — null/undefined, an array whose length is not
4, or an object any of whose four coordinates converts to NaN; a
coordinate converting to ±Infinity in object form is accepted and passed
through, NOT rejected.  A 4-element sequence has each non-numeric (NaN)
entry coerced to 0 rather than rejected; for a well-formed object the
resolved page is the object's own page when finite, otherwise
`fallbackPage`; and for every 4-tuple of finite numbers the result is
exactly `{x1, y1, x2, y2, page: fallbackPage}`. -/
theorem C3_normalizeBBox_amended :
    (∀ fb, normalizeBBox .missing fb = none) ∧
    (∀ items fb, items.length ≠ 4 → normalizeBBox (.arr items) fb = none) ∧
    (∀ x1 y1 x2 y2 page fb,
      normalizeBBox (.obj x1 y1 x2 y2 page) fb = none ↔
        (x1.isNaN || y1.isNaN || x2.isNaN || y2.isNaN) = true) ∧
    (∀ fb, normalizeBBox (.arr [.nan, .nan, .nan, .nan]) fb =
      some ⟨.fin 0, .fin 0, .fin 0, .fin 0, fb⟩) ∧
    (∀ x1 y1 x2 y2 page fb,
      (x1.isNaN || y1.isNaN || x2.isNaN || y2.isNaN) = false →
      (normalizeBBox (.obj x1 y1 x2 y2 page) fb).map NBBox.page =
        some (if page.isFinite then some page else fb)) ∧
    (∀ (a b c d : ℚ) fb,
      normalizeBBox (.arr [.fin a, .fin b, .fin c, .fin d]) fb =
        some ⟨.fin a, .fin b, .fin c, .fin d, fb⟩) := by
  refine ⟨fun fb => rfl, ?_, ?_, fun fb => rfl, ?_, ?_⟩
  · intro items fb h
    rcases items with _ | ⟨a, _ | ⟨b, _ | ⟨c, _ | ⟨d, _ | ⟨e, rest⟩⟩⟩⟩⟩ <;>
      first
      | rfl
      | simp at h
  · intro x1 y1 x2 y2 page fb
    by_cases h : (x1.isNaN || y1.isNaN || x2.isNaN || y2.isNaN) = true
    · simp [normalizeBBox, h]
    · simp only [Bool.not_eq_true] at h
      simp [normalizeBBox, h]
  · intro x1 y1 x2 y2 page fb h
    simp [normalizeBBox, h]
  · intro a b c d fb
    simp [normalizeBBox, JSNum.orZero_fin]

/-- `meta.page || 1` is never 0. -/
lemma metaPageOr1_ne_zero (mp : Option ℚ) : metaPageOr1 mp ≠ 0 := by
  rcases mp with _ | p
  · simp [metaPageOr1]
  · by_cases h : p = 0 <;> simp [metaPageOr1, h]

/-- `meta.page || 1` is at least 1 when every stored page is 0 or ≥ 1. -/
lemma metaPageOr1_ge_one (mp : Option ℚ)
    (h : ∀ p : ℚ, mp = some p → p = 0 ∨ 1 ≤ p) : 1 ≤ metaPageOr1 mp := by
  rcases mp with _ | p
  · simp [metaPageOr1]
  · rcases h p rfl with h0 | h1
    · simp [metaPageOr1, h0]
    · have : p ≠ 0 := by intro h0; rw [h0] at h1; norm_num at h1
      simp [metaPageOr1, this, h1]

/-- The resolved page is always truthy (neither NaN nor 0). -/
lemma resolvePage_truthy (nbp : Option JSNum) (mp : Option ℚ) :
    (resolvePage nbp mp).truthy = true := by
  rcases nbp with _ | n
  · simp [resolvePage, JSNum.truthy, metaPageOr1_ne_zero]
  · by_cases h : n.truthy = true
    · simp [resolvePage, h]
    · simp only [Bool.not_eq_true] at h
      simp only [resolvePage, h, Bool.false_eq_true, if_false]
      simp [JSNum.truthy, metaPageOr1_ne_zero]

/-- The page of a successfully normalized bbox is either the fallback
page or the finite page carried by an object input. -/
lemma normalizeBBox_page_cases (raw : RawBBox) (fb : Option JSNum)
    (nb : NBBox) (h : normalizeBBox raw fb = some nb) :
    nb.page = fb ∨
      (∃ x1 y1 x2 y2 pg, raw = .obj x1 y1 x2 y2 pg ∧ pg.isFinite = true ∧
        nb.page = some pg) := by
  rcases raw with _ | items | ⟨x1, y1, x2, y2, pg⟩
  · simp [normalizeBBox] at h
  · left
    rcases items with _ | ⟨a, _ | ⟨b, _ | ⟨c, _ | ⟨d, _ | ⟨e, rest⟩⟩⟩⟩⟩ <;>
      simp [normalizeBBox] at h
    rw [← h]
  · by_cases hn : (x1.isNaN || y1.isNaN || x2.isNaN || y2.isNaN) = true
    · simp [normalizeBBox, hn] at h
    · simp only [Bool.not_eq_true] at hn
      simp only [normalizeBBox, hn, Bool.false_eq_true, if_false] at h
      by_cases hf : pg.isFinite = true
      · right
        refine ⟨x1, y1, x2, y2, pg, rfl, hf, ?_⟩
        cases Option.some.inj h
        simp [hf]
      · left
        simp only [Bool.not_eq_true] at hf
        cases Option.some.inj h
        simp [hf]

/-- C4 counterexample: field metadata whose bounding-box object carries
page -5 produces a highlight whose resolved bbox page is -5, which is not
≥ 1, refuting the claim for negative page values. -/
theorem C4_claim_counterexample :
    (buildHighlightForField "f"
        (some ⟨.obj (.fin 0) (.fin 0) (.fin 1) (.fin 1) (.fin (-5)),
          none, none, none, [], none, none, none⟩) 0).map
        (fun h => h.bbox.page) = some (.fin (-5)) ∧
    ¬ (1 : ℚ) ≤ -5 := by
  constructor
  · rfl
  · norm_num

/-- C4 (amended): every highlight built by `buildHighlightForField` from
metadata whose bounding box normalizes successfully has its bbox page
resolved to a truthy value (never NaN and never 0), and that value is ≥ 1
whenever every finite page value present in the metadata (the field's
page and any page carried by the bounding-box object) is either 0 or ≥ 1
— in particular for zero or missing page values, which default to 1.  A
finite page value below 1 (negative or fractional) is passed through
unchanged, so the unconditional "page ≥ 1" of the original claim fails
only for such inputs. -/
theorem C4_highlight_page_amended :
    (∀ name meta now h,
      buildHighlightForField name (some meta) now = some h →
      h.bbox.page.truthy = true) ∧
    (∀ name meta now h,
      buildHighlightForField name (some meta) now = some h →
      (∀ p : ℚ, meta.page = some p → p = 0 ∨ 1 ≤ p) →
      (∀ x1 y1 x2 y2 pg (q : ℚ), meta.bbox = .obj x1 y1 x2 y2 pg →
        pg = .fin q → q = 0 ∨ 1 ≤ q) →
      ∃ q : ℚ, h.bbox.page = .fin q ∧ 1 ≤ q) ∧
    (buildHighlightForField "f"
        (some ⟨.obj (.fin 0) (.fin 0) (.fin 1) (.fin 1) (.fin 0),
          some 0, none, none, [], none, none, none⟩) 0).map
        (fun h => h.bbox.page) = some (.fin 1) := by
  refine ⟨?_, ?_, rfl⟩
  · intro name meta now h hEq
    cases hnb : normalizeBBox meta.bbox (some (.fin (metaPageOr1 meta.page))) with
    | none => simp [buildHighlightForField, hnb] at hEq
    | some nb =>
      simp only [buildHighlightForField, hnb] at hEq
      cases hEq
      exact resolvePage_truthy _ _
  · intro name meta now h hEq hp hb
    cases hnb : normalizeBBox meta.bbox (some (.fin (metaPageOr1 meta.page))) with
    | none => simp [buildHighlightForField, hnb] at hEq
    | some nb =>
      simp only [buildHighlightForField, hnb] at hEq
      cases hEq
      show ∃ q : ℚ, resolvePage nb.page meta.page = .fin q ∧ 1 ≤ q
      rcases normalizeBBox_page_cases _ _ _ hnb with hpg |
        ⟨x1, y1, x2, y2, pg, hraw, hfin, hpg⟩
      · rw [hpg]
        have hne := metaPageOr1_ne_zero meta.page
        refine ⟨metaPageOr1 meta.page, ?_, metaPageOr1_ge_one _ hp⟩
        simp [resolvePage, JSNum.truthy, hne]
      · rcases pg with _ | _ | _ | q
        · simp [JSNum.isFinite] at hfin
        · simp [JSNum.isFinite] at hfin
        · simp [JSNum.isFinite] at hfin
        · rw [hpg]
          by_cases hq : q = 0
          · refine ⟨metaPageOr1 meta.page, ?_,
              metaPageOr1_ge_one _ hp⟩
            simp [resolvePage, JSNum.truthy, hq]
          · rcases hb x1 y1 x2 y2 _ q hraw rfl with h0 | h1
            · exact absurd h0 hq
            · refine ⟨q, ?_, h1⟩
              simp [resolvePage, JSNum.truthy, hq]

/-- C7 (confirmed): in relative mode `bboxToRect` returns
`left = x1·displayWidth`, `top = y1·displayHeight`,
`width = max((x2-x1)·displayWidth, 2)`,
`height = max((y2-y1)·displayHeight, 2)`; in absolute mode it applies the
same formulas with `scaleX = displayWidth/naturalWidth` (1 when
naturalWidth is falsy) and scaleY analogous; and the two concrete
examples of the claim evaluate as stated. -/
theorem C7_bboxToRect_formulas :
    (∀ bbox dims, inferredRelative bbox dims.bboxRelative = true →
      bboxToRect bbox dims =
        ⟨bbox.x1 * dims.displayWidth, bbox.y1 * dims.displayHeight,
          max ((bbox.x2 - bbox.x1) * dims.displayWidth) 2,
          max ((bbox.y2 - bbox.y1) * dims.displayHeight) 2⟩) ∧
    (∀ bbox dims, inferredRelative bbox dims.bboxRelative = false →
      bboxToRect bbox dims =
        ⟨bbox.x1 * scaleOf dims.displayWidth dims.naturalWidth,
          bbox.y1 * scaleOf dims.displayHeight dims.naturalHeight,
          max ((bbox.x2 - bbox.x1) * scaleOf dims.displayWidth dims.naturalWidth) 2,
          max ((bbox.y2 - bbox.y1) * scaleOf dims.displayHeight dims.naturalHeight) 2⟩) ∧
    bboxToRect ⟨1/10, 2/10, 5/10, 6/10⟩ ⟨1000, 500, none, none, none⟩ =
      ⟨100, 100, 400, 200⟩ ∧
    bboxToRect ⟨10, 10, 110, 60⟩ ⟨200, 100, some 100, some 50, none⟩ =
      ⟨20, 20, 200, 100⟩ := by
  refine ⟨fun bbox dims h => ?_, fun bbox dims h => ?_, ?_, ?_⟩
  · simp [bboxToRect, h]
  · simp [bboxToRect, h]
  · norm_num [bboxToRect, inferredRelative, Rect.mk.injEq, max_def]
  · norm_num [bboxToRect, inferredRelative, scaleOf, Rect.mk.injEq, max_def]

/-- C8 (confirmed): `computeZoomToFit` returns
`min(viewport.width/safeWidth, viewport.height/safeHeight)` clamped into
`[minZoom, maxZoom]`, with `safeWidth = max(rect.width + 2·padding, 1)`
and `safeHeight = max(rect.height + 2·padding, 1)`; whenever
`minZoom ≤ maxZoom` the result lies in `[minZoom, maxZoom]`; and the
claim's example rect 100×50 in viewport 800×600 with padding 20 gives 3. -/
theorem C8_computeZoomToFit_props :
    (∀ rect viewport padding minZoom maxZoom,
      computeZoomToFit rect viewport padding minZoom maxZoom =
        clamp
          (min (viewport.width / max (rect.width + 2 * padding) 1)
            (viewport.height / max (rect.height + 2 * padding) 1))
          minZoom maxZoom) ∧
    (∀ rect viewport padding minZoom maxZoom, minZoom ≤ maxZoom →
      minZoom ≤ computeZoomToFit rect viewport padding minZoom maxZoom ∧
      computeZoomToFit rect viewport padding minZoom maxZoom ≤ maxZoom) ∧
    computeZoomToFit ⟨0, 0, 100, 50⟩ ⟨800, 600⟩ 20 1 3 = 3 := by
  refine ⟨fun rect viewport padding minZoom maxZoom => ?_,
    fun rect viewport padding minZoom maxZoom h => ⟨?_, ?_⟩,
    by norm_num [computeZoomToFit, clamp, max_def, min_def]⟩
  · simp [computeZoomToFit, mul_comm]
  · exact le_min (le_max_right _ _) h
  · exact min_le_right _ _

/-- C10 (confirmed): field value precedence in `pickInitialFieldValue`
is decided by key presence rather than value content: whenever the field
name exists as a key of the corrected map, the corrected entry is used
even when its value is null/undefined, in which case the result is the
empty string and any non-empty normalized or raw value for that field is
masked; the same presence rule applies between normalized and raw. -/
theorem C10_pick_value_presence :
    (∀ name raw normalized corrected v,
      lookupField corrected name = some v →
      pickInitialFieldValue name raw normalized corrected = readValue v) ∧
    (∀ name raw normalized corrected,
      lookupField corrected name = some .vnull →
      pickInitialFieldValue name raw normalized corrected = "") ∧
    (∀ name raw normalized corrected v,
      lookupField corrected name = none →
      lookupField normalized name = some v →
      pickInitialFieldValue name raw normalized corrected = readValue v) ∧
    (∀ name raw normalized corrected,
      lookupField corrected name = none →
      lookupField normalized name = some .vnull →
      pickInitialFieldValue name raw normalized corrected = "") ∧
    pickInitialFieldValue "c" [] [("c", .vstr "hello")]
      [("c", .vnull)] = "" ∧
    pickInitialFieldValue "x" [("x", .vstr "raw")] [("x", .vnull)]
      [] = "" := by
  refine ⟨?_, ?_, ?_, ?_, by decide, by decide⟩
  · intro name raw normalized corrected v h
    simp [pickInitialFieldValue, h]
  · intro name raw normalized corrected h
    simp [pickInitialFieldValue, h, readValue]
  · intro name raw normalized corrected v hc hn
    simp [pickInitialFieldValue, hc, hn]
  · intro name raw normalized corrected hc hn
    simp [pickInitialFieldValue, hc, hn, readValue]

/-- The enhanced multi-select branch of `updateSelection` with a non-null
candidate, spelled out. -/
lemma updateSelection_multi_some (h : Highlight) (prev : HighlightsState) :
    updateSelection true true (some h) prev =
      if prev.selectedHighlightIds.contains h.id then
        ⟨prev.highlights.filter (fun item =>
            (prev.selectedHighlightIds.filter
              (fun i => i != h.id)).contains item.id),
          prev.selectedHighlightIds.filter (fun i => i != h.id)⟩
      else
        ⟨prev.highlights.filter (fun item => item.id != h.id) ++ [h],
          prev.selectedHighlightIds ++ [h.id]⟩ :=
  rfl

/-- C5 (confirmed): for a multi-select transition with a non-null
candidate, a candidate whose id is already selected is removed and the
highlights not referenced by any remaining selected id are pruned; an
unselected candidate is appended to both `highlights` and
`selectedHighlightIds`, preserving insertion order; a null candidate
leaves the state unchanged; and multi-selecting field A, then field B,
then field A again leaves exactly B selected. -/
theorem C5_multi_select_toggle :
    (∀ prev (h : Highlight),
      prev.selectedHighlightIds.contains h.id = true →
      (updateSelection true true (some h) prev).selectedHighlightIds =
        prev.selectedHighlightIds.filter (fun i => i != h.id) ∧
      h.id ∉ (updateSelection true true (some h) prev).selectedHighlightIds ∧
      (∀ item, item ∈ (updateSelection true true (some h) prev).highlights ↔
        (item ∈ prev.highlights ∧ item.id ∈
          (updateSelection true true (some h) prev).selectedHighlightIds))) ∧
    (∀ prev (h : Highlight),
      prev.selectedHighlightIds.contains h.id = false →
      h.id ∉ prev.highlights.map Highlight.id →
      updateSelection true true (some h) prev =
        ⟨prev.highlights ++ [h], prev.selectedHighlightIds ++ [h.id]⟩) ∧
    (∀ prev, updateSelection true true none prev = prev) ∧
    ((updateSelectionFromField true demoFieldMeta "A" true 2
        (updateSelectionFromField true demoFieldMeta "B" true 1
          (updateSelectionFromField true demoFieldMeta "A" true 0
            ⟨[], []⟩))).highlights.map Highlight.fieldKey = ["B"] ∧
      (updateSelectionFromField true demoFieldMeta "A" true 2
        (updateSelectionFromField true demoFieldMeta "B" true 1
          (updateSelectionFromField true demoFieldMeta "A" true 0
            ⟨[], []⟩))).selectedHighlightIds =
        (updateSelectionFromField true demoFieldMeta "A" true 2
          (updateSelectionFromField true demoFieldMeta "B" true 1
            (updateSelectionFromField true demoFieldMeta "A" true 0
              ⟨[], []⟩))).highlights.map Highlight.id) := by
  refine ⟨?_, ?_, fun prev => rfl, by decide, by decide⟩
  · intro prev h hsel
    rw [updateSelection_multi_some h prev, if_pos hsel]
    refine ⟨rfl, ?_, ?_⟩
    · simp [List.mem_filter]
    · intro item
      simp [List.mem_filter]
  · intro prev h hsel hmem
    have hfilter : prev.highlights.filter (fun item => item.id != h.id) =
        prev.highlights := by
      apply List.filter_eq_self.mpr
      intro item hitem
      simp only [bne_iff_ne, ne_eq]
      intro heq
      exact hmem (heq ▸ List.mem_map_of_mem Highlight.id hitem)
    rw [updateSelection_multi_some h prev,
      if_neg (by rw [hsel]; exact Bool.false_ne_true), hfilter]

/-- The ids of the kept highlights track the selected-id list through
every single transition. -/
lemma updateSelection_ids_eq (flag multi : Bool) (cand : Option Highlight)
    (s : HighlightsState)
    (hs : s.highlights.map Highlight.id = s.selectedHighlightIds) :
    (updateSelection flag multi cand s).highlights.map Highlight.id =
      (updateSelection flag multi cand s).selectedHighlightIds := by
  cases flag with
  | false => rcases cand with _ | h <;> rfl
  | true =>
    cases multi with
    | false => rcases cand with _ | h <;> rfl
    | true =>
      rcases cand with _ | h
      · exact hs
      · rw [updateSelection_multi_some h s]
        by_cases hsel : s.selectedHighlightIds.contains h.id = true
        · rw [if_pos hsel]
          show (s.highlights.filter (fun item =>
              (s.selectedHighlightIds.filter
                (fun i => i != h.id)).contains item.id)).map Highlight.id =
            s.selectedHighlightIds.filter (fun i => i != h.id)
          calc (s.highlights.filter (fun item =>
                (s.selectedHighlightIds.filter
                  (fun i => i != h.id)).contains item.id)).map Highlight.id
              = (s.highlights.map Highlight.id).filter (fun i =>
                  (s.selectedHighlightIds.filter
                    (fun j => j != h.id)).contains i) :=
                (List.filter_map
                  (p := fun i => (s.selectedHighlightIds.filter
                    (fun j => j != h.id)).contains i)
                  Highlight.id s.highlights).symm
            _ = s.selectedHighlightIds.filter (fun i =>
                  (s.selectedHighlightIds.filter
                    (fun j => j != h.id)).contains i) := by rw [hs]
            _ = s.selectedHighlightIds.filter (fun i => i != h.id) := by
                apply List.filter_congr
                intro x hx
                by_cases hxh : x = h.id
                · subst hxh
                  simp [List.mem_filter]
                · simp [List.mem_filter, hx, hxh]
        · rw [if_neg hsel]
          have hnotmem : h.id ∉ s.selectedHighlightIds := by simpa using hsel
          show (s.highlights.filter
              (fun item => item.id != h.id) ++ [h]).map Highlight.id =
            s.selectedHighlightIds ++ [h.id]
          rw [List.map_append]
          have hkeep : (s.highlights.filter
              (fun item => item.id != h.id)).map Highlight.id =
              s.selectedHighlightIds := by
            calc (s.highlights.filter
                  (fun item => item.id != h.id)).map Highlight.id
                = (s.highlights.map Highlight.id).filter
                    (fun i => i != h.id) :=
                  (List.filter_map (p := fun i => i != h.id)
                    Highlight.id s.highlights).symm
              _ = s.selectedHighlightIds.filter (fun i => i != h.id) := by
                  rw [hs]
              _ = s.selectedHighlightIds := by
                  apply List.filter_eq_self.mpr
                  intro a ha
                  simp only [bne_iff_ne, ne_eq, decide_eq_true_eq]
                  intro heq
                  exact hnotmem (heq ▸ ha)
          rw [hkeep]
          rfl

/-- Every reachable selection state has its highlight ids equal, as a
list, to its selected-id list. -/
lemma reachable_ids_eq (s : HighlightsState) (hr : Reachable s) :
    s.highlights.map Highlight.id = s.selectedHighlightIds := by
  induction hr with
  | init => rfl
  | focus flag multi cand t _ ih => exact updateSelection_ids_eq flag multi cand t ih
  | clear t _ _ => rfl

/-- C6 (confirmed): in every highlight-selection state reachable from
the initial empty state via focusField updates (single- or multi-select,
feature flag on or off) and the clear operation, selectedHighlightIds is
a subset of the ids of highlights (the two lists are in fact equal); and
every single-select or flag-off transition fully replaces the state,
independently of the previous state. -/
theorem C6_selection_invariant :
    (∀ s, Reachable s →
      ∀ i, i ∈ s.selectedHighlightIds → i ∈ s.highlights.map Highlight.id) ∧
    (∀ s, Reachable s →
      s.highlights.map Highlight.id = s.selectedHighlightIds) ∧
    (∀ (flag multi : Bool) cand prev prev2,
      flag = false ∨ multi = false →
      updateSelection flag multi cand prev =
        updateSelection flag multi cand prev2) := by
  refine ⟨?_, reachable_ids_eq, ?_⟩
  · intro s hr i hi
    rw [reachable_ids_eq s hr]
    exact hi
  · intro flag multi cand prev prev2 hOr
    cases flag <;> cases multi <;>
      first
      | (rcases cand with _ | h <;> rfl)
      | (rcases hOr with h | h <;> simp at h)

/-- The code-unit comparison is total. -/
lemma charListLeB_total : ∀ as bs : List Char,
    charListLeB as bs = true ∨ charListLeB bs as = true
  | [], _ => Or.inl rfl
  | _ :: _, [] => Or.inr rfl
  | a :: as, b :: bs => by
    by_cases h1 : a.toNat < b.toNat
    · left
      simp [charListLeB, h1]
    · by_cases h2 : b.toNat < a.toNat
      · right
        simp [charListLeB, h2]
      · rcases charListLeB_total as bs with h | h
        · left
          simp [charListLeB, h1, h2, h]
        · right
          simp [charListLeB, h1, h2, h]

/-- The code-unit comparison is transitive. -/
lemma charListLeB_trans : ∀ as bs cs : List Char,
    charListLeB as bs = true → charListLeB bs cs = true →
    charListLeB as cs = true
  | [], _, _ => fun _ _ => rfl
  | _ :: _, [], _ => fun h1 _ => by simp [charListLeB] at h1
  | _ :: _, _ :: _, [] => fun _ h2 => by simp [charListLeB] at h2
  | a :: as, b :: bs, c :: cs => fun h1 h2 => by
    by_cases hab : a.toNat < b.toNat
    · by_cases hbc : b.toNat < c.toNat
      · have hac : a.toNat < c.toNat := lt_trans hab hbc
        simp [charListLeB, hac]
      · by_cases hcb : c.toNat < b.toNat
        · simp [charListLeB, hbc, hcb] at h2
        · have hbceq : b.toNat = c.toNat :=
            le_antisymm (not_lt.mp hcb) (not_lt.mp hbc)
          have hac : a.toNat < c.toNat := hbceq ▸ hab
          simp [charListLeB, hac]
    · by_cases hba : b.toNat < a.toNat
      · simp [charListLeB, hab, hba] at h1
      · have habeq : a.toNat = b.toNat :=
          le_antisymm (not_lt.mp hba) (not_lt.mp hab)
        by_cases hbc : b.toNat < c.toNat
        · have hac : a.toNat < c.toNat := habeq ▸ hbc
          simp [charListLeB, hac]
        · by_cases hcb : c.toNat < b.toNat
          · simp [charListLeB, hbc, hcb] at h2
          · have h1r : charListLeB as bs = true := by
              simpa [charListLeB, hab, hba] using h1
            have h2r : charListLeB bs cs = true := by
              simpa [charListLeB, hbc, hcb] using h2
            have hac1 : ¬ a.toNat < c.toNat := by rw [habeq]; exact hbc
            have hca : ¬ c.toNat < a.toNat := by rw [habeq]; exact hcb
            simp [charListLeB, hac1, hca,
              charListLeB_trans as bs cs h1r h2r]

instance : IsTotal String strLe :=
  ⟨fun a b => charListLeB_total a.data b.data⟩

instance : IsTrans String strLe :=
  ⟨fun a b c => charListLeB_trans a.data b.data c.data⟩

/-- C9 (confirmed): `mergeFieldNames` returns the union of the keys of
the three field maps, the priority-listed names present coming first in
the canonical order of `PRIORITY_FIELDS` and all remaining names appended
in sorted (code-unit alphabetical) order, without duplicates; on
raw = {a, b}, normalized = {b, c}, corrected = {c} the result is
["a", "b", "c"] and field c's initial value resolves to corrected's 5. -/
theorem C9_mergeFieldNames_props :
    (∀ r n c name, name ∈ mergeFieldNames r n c ↔
      (name ∈ r ∨ name ∈ n ∨ name ∈ c)) ∧
    (∀ r n c, ∃ rest,
      mergeFieldNames r n c =
        PRIORITY_FIELDS.filter
          (fun nm => decide (nm ∈ r ∨ nm ∈ n ∨ nm ∈ c)) ++ rest ∧
      List.Sorted strLe rest ∧
      (∀ x ∈ rest, x ∉ PRIORITY_FIELDS)) ∧
    (∀ r n c, (mergeFieldNames r n c).Nodup) ∧
    mergeFieldNames ["a", "b"] ["b", "c"] ["c"] = ["a", "b", "c"] ∧
    pickInitialFieldValue "c" [("a", .vnum 1), ("b", .vnum 2)]
      [("b", .vnum 3), ("c", .vnum 4)] [("c", .vnum 5)] = "5" := by
  refine ⟨?_, ?_, ?_, by decide, by decide⟩
  · intro r n c name
    simp only [mergeFieldNames, List.mem_append]
    rw [(List.perm_insertionSort strLe _).mem_iff]
    simp [List.mem_filter, List.mem_dedup, or_assoc]
    tauto
  · intro r n c
    refine ⟨(((r ++ n ++ c).dedup).filter (fun name =>
      !(PRIORITY_FIELDS.filter (fun nm =>
        ((r ++ n ++ c).dedup).contains nm)).contains name)).insertionSort
          strLe, ?_, List.sorted_insertionSort strLe _, ?_⟩
    · show PRIORITY_FIELDS.filter _ ++ _ = PRIORITY_FIELDS.filter _ ++ _
      congr 1
      apply List.filter_congr
      intro nm _
      simp [List.mem_dedup, List.mem_append, or_assoc]
    · intro x hx
      rw [(List.perm_insertionSort strLe _).mem_iff, List.mem_filter] at hx
      rcases hx with ⟨hxnames, hxnp⟩
      rw [Bool.not_eq_true'] at hxnp
      have hnotin : x ∉ PRIORITY_FIELDS.filter
          (fun nm => ((r ++ n ++ c).dedup).contains nm) := by
        simpa using hxnp
      intro hxP
      exact hnotin (List.mem_filter.mpr ⟨hxP, by simpa using hxnames⟩)
  · intro r n c
    apply List.Nodup.append
    · exact List.Nodup.filter _ (by decide)
    · exact ((List.perm_insertionSort strLe _).nodup_iff).mpr
        (List.Nodup.filter _ (List.nodup_dedup _))
    · rw [List.disjoint_left]
      intro a haP haR
      rw [(List.perm_insertionSort strLe _).mem_iff, List.mem_filter] at haR
      rcases haR with ⟨-, hnp⟩
      rw [Bool.not_eq_true'] at hnp
      exact (by simpa using hnp : a ∉ PRIORITY_FIELDS.filter
        (fun name => ((r ++ n ++ c).dedup).contains name)) haP

end OCRReview
